import Mathlib

/-!
Verification of the habit-tracking engine of this repository.

The engine lives in the `useHabits` hook: in-memory lists `habits` and
`entries` mirroring the remote store, mutation operations (`createHabit`,
`updateHabit`, `deleteHabit`, `toggleEntry`) and query operations
(`isCompletedOnDate`, `getStreak`).  We embed it shallowly:

* Calendar dates are modelled as integers (day numbers).  The source
  compares dates through their `yyyy-MM-dd` rendering, which is injective
  on calendar days, and `subDays(d, 1)` is `d - 1`.
* Entry ids (UUID primary keys generated by the store) are modelled as
  natural numbers.
* Each store round trip is modelled by an explicit `Except StoreError α`
  argument carrying either the remote failure or the data the store
  generates (fresh ids, timestamps); on success the store echoes back the
  row that was written, which the embedding reconstructs from the request.
* React state setters become explicit state passing on `EngineState`.
-/

/-- A habit row, after `Habit` in the source (`useHabits`). -/
structure Habit where
  id : String
  name : String
  description : Option String
  frequency : String
  is_archived : Bool
  created_at : Nat
  user_id : String
deriving Repr, DecidableEq

/-- A completion-entry row, after `HabitEntry` in the source.  `date` is a
calendar-day number standing for the `yyyy-MM-dd` string in the source. -/
structure HabitEntry where
  id : Nat
  habit_id : String
  date : Int
  completed : Bool
deriving Repr, DecidableEq

/-- The failure value returned by the external store (`error` in the
supabase response). -/
structure StoreError where
  msg : String
deriving Repr, DecidableEq

/-- The in-memory state owned by the hook: the `habits` and `entries`
React state lists. -/
structure EngineState where
  habits : List Habit
  entries : List HabitEntry
deriving Repr, DecidableEq

/-- `isCompletedOnDate` from the source:
`entries.some(e => e.habit_id === habitId && e.date === date && e.completed)`. -/
def isCompletedOnDate (entries : List HabitEntry) (habitId : String) (date : Int) : Bool :=
  entries.any fun e => e.habit_id == habitId && e.date == date && e.completed

lemma isCompletedOnDate_iff {entries : List HabitEntry} {habitId : String} {date : Int} :
    isCompletedOnDate entries habitId date = true ↔
      ∃ e ∈ entries, e.habit_id = habitId ∧ e.date = date ∧ e.completed = true := by
  simp [isCompletedOnDate, List.any_eq_true, Bool.and_eq_true, beq_iff_eq, and_assoc]

/-- The distinct dates `≤ d` holding a loaded completed entry of the habit;
the termination measure of the `getStreak` loop. -/
def completedDatesLe (entries : List HabitEntry) (habitId : String) (d : Int) : Finset Int :=
  ((entries.filter fun e =>
      e.habit_id == habitId && e.completed && decide (e.date ≤ d)).map
    (fun e => e.date)).toFinset

/-- All distinct dates holding a loaded completed entry of the habit. -/
def completedDates (entries : List HabitEntry) (habitId : String) : Finset Int :=
  ((entries.filter fun e => e.habit_id == habitId && e.completed).map
    (fun e => e.date)).toFinset

lemma mem_completedDatesLe {entries : List HabitEntry} {habitId : String} {d x : Int} :
    x ∈ completedDatesLe entries habitId d ↔
      ∃ e ∈ entries, e.habit_id = habitId ∧ e.completed = true ∧ e.date ≤ d ∧ e.date = x := by
  simp [completedDatesLe, List.mem_toFinset, List.mem_map, List.mem_filter,
    Bool.and_eq_true, beq_iff_eq, and_assoc]

lemma mem_completedDates {entries : List HabitEntry} {habitId : String} {x : Int} :
    x ∈ completedDates entries habitId ↔
      ∃ e ∈ entries, e.habit_id = habitId ∧ e.completed = true ∧ e.date = x := by
  simp [completedDates, List.mem_toFinset, List.mem_map, List.mem_filter,
    Bool.and_eq_true, beq_iff_eq, and_assoc]

lemma completedDatesLe_subset {entries : List HabitEntry} {habitId : String} {d : Int} :
    completedDatesLe entries habitId (d - 1) ⊆ completedDatesLe entries habitId d := by
  intro x hx
  rw [mem_completedDatesLe] at hx ⊢
  obtain ⟨e, he, h1, h2, h3, h4⟩ := hx
  exact ⟨e, he, h1, h2, by omega, h4⟩

lemma completedDatesLe_subset_completedDates {entries : List HabitEntry} {habitId : String}
    {d : Int} : completedDatesLe entries habitId d ⊆ completedDates entries habitId := by
  intro x hx
  rw [mem_completedDatesLe] at hx
  rw [mem_completedDates]
  obtain ⟨e, he, h1, h2, _, h4⟩ := hx
  exact ⟨e, he, h1, h2, h4⟩

lemma completedDatesLe_card_lt {entries : List HabitEntry} {habitId : String} {d : Int}
    (h : isCompletedOnDate entries habitId d = true) :
    (completedDatesLe entries habitId (d - 1)).card < (completedDatesLe entries habitId d).card := by
  apply Finset.card_lt_card
  rw [Finset.ssubset_iff_of_subset completedDatesLe_subset]
  obtain ⟨e, he, h1, h2, h3⟩ := isCompletedOnDate_iff.mp h
  refine ⟨d, mem_completedDatesLe.mpr ⟨e, he, h1, h3, by omega, h2⟩, ?_⟩
  intro hmem
  rw [mem_completedDatesLe] at hmem
  obtain ⟨e', _, _, _, hle, hdate⟩ := hmem
  omega

/-- `getStreak` from the source, with the ambient "today"
(`startOfDay(new Date())`) made an explicit argument `asOf`: walk backward
one day at a time from `asOf`, counting days while `isCompletedOnDate`
holds.  The `while (true)` loop terminates because each completed step
consumes one of the finitely many loaded completed dates. -/
def getStreak (entries : List HabitEntry) (habitId : String) (asOf : Int) : Nat :=
  if h : isCompletedOnDate entries habitId asOf then
    1 + getStreak entries habitId (asOf - 1)
  else
    0
termination_by (completedDatesLe entries habitId asOf).card
decreasing_by
  exact completedDatesLe_card_lt h

lemma getStreak_eq (entries : List HabitEntry) (habitId : String) (asOf : Int) :
    getStreak entries habitId asOf =
      if isCompletedOnDate entries habitId asOf then
        1 + getStreak entries habitId (asOf - 1)
      else 0 := by
  rw [getStreak]
  split <;> simp_all

/-- `toggleEntry` from the source, success path of the single store round
trip it performs.  If an entry for `(habitId, date)` is found
(`entries.find(...)`), the store flips its `completed` flag and the state
maps the returned row over entries matching its id; otherwise the store
inserts a row with `completed = true` (receiving the generated id
`newId`) and the state appends it. -/
def toggleEntry (newId : Nat) (habitId : String) (date : Int)
    (entries : List HabitEntry) : List HabitEntry :=
  match entries.find? (fun e => e.habit_id == habitId && e.date == date) with
  | some existing =>
      let data : HabitEntry := { existing with completed := !existing.completed }
      entries.map fun e => if e.id == data.id then data else e
  | none =>
      entries ++ [{ id := newId, habit_id := habitId, date := date, completed := true }]

/-- `toggleEntry` with the store round trip explicit: on a store error the
entries state is left unchanged (`if (!error && data)` guard in the
source). -/
def toggleEntryStore (resp : Except StoreError Nat) (habitId : String) (date : Int)
    (entries : List HabitEntry) : List HabitEntry :=
  match resp with
  | .error _ => entries
  | .ok newId => toggleEntry newId habitId date entries

/-- `description || null` in the source: an empty string is falsy, so it is
sent to the store as `null`; any non-empty string is sent verbatim. -/
def descriptionOrNull (description : String) : Option String :=
  if description == "" then none else some description

/-- The row `createHabit` asks the store to insert:
`{ name, description: description || null, frequency, user_id: user.id }`. -/
structure HabitInsert where
  name : String
  description : Option String
  frequency : String
  user_id : String
deriving Repr, DecidableEq

def createHabitRequest (name description frequency userId : String) : HabitInsert :=
  { name := name
    description := descriptionOrNull description
    frequency := frequency
    user_id := userId }

/-- `createHabit` from the source.  `resp` is the store round trip: an
error, or the id and timestamp the store generates for the inserted row
(the store echoes the row back, with `is_archived` defaulting to false per
the schema).  On success the row is prepended to `habits` and returned; on
error the state is unchanged and `null` is returned. -/
def createHabit (name description frequency userId : String)
    (resp : Except StoreError (String × Nat)) (habits : List Habit) :
    List Habit × Option Habit :=
  match resp with
  | .error _ => (habits, none)
  | .ok (newId, ts) =>
      let req := createHabitRequest name description frequency userId
      let data : Habit :=
        { id := newId
          name := req.name
          description := req.description
          frequency := req.frequency
          is_archived := false
          created_at := ts
          user_id := req.user_id }
      (data :: habits, some data)

/-- `updateHabit` from the source.  On success the store returns the stored
row with `name`, `description || null` and `frequency` updated
(`resp.ok stored` carries the row the `eq('id', id)` update matched); the
state replaces habits whose id matches.  On error the state is unchanged
and `null` is returned. -/
def updateHabit (id name description frequency : String)
    (resp : Except StoreError Habit) (habits : List Habit) :
    List Habit × Option Habit :=
  match resp with
  | .error _ => (habits, none)
  | .ok stored =>
      let data : Habit :=
        { stored with
            name := name
            description := descriptionOrNull description
            frequency := frequency }
      (habits.map fun h => if h.id == id then data else h, some data)

/-- `deleteHabit` from the source: on success, filter the habit out of the
in-memory `habits` list and return true; on error, leave the state
unchanged and return false.  The `entries` state is not touched. -/
def deleteHabit (id : String) (resp : Except StoreError Unit) (habits : List Habit) :
    List Habit × Bool :=
  match resp with
  | .error _ => (habits, false)
  | .ok _ => (habits.filter fun h => h.id != id, true)

/-- `createHabit` acting on the full engine state: only the `habits` list
is read or written. -/
def createHabitS (name description frequency userId : String)
    (resp : Except StoreError (String × Nat)) (s : EngineState) :
    EngineState × Option Habit :=
  let r := createHabit name description frequency userId resp s.habits
  ({ s with habits := r.1 }, r.2)

/-- `updateHabit` acting on the full engine state. -/
def updateHabitS (id name description frequency : String)
    (resp : Except StoreError Habit) (s : EngineState) :
    EngineState × Option Habit :=
  let r := updateHabit id name description frequency resp s.habits
  ({ s with habits := r.1 }, r.2)

/-- `deleteHabit` acting on the full engine state: only `habits` is
written; the cached `entries` list is untouched by this operation. -/
def deleteHabitS (id : String) (resp : Except StoreError Unit) (s : EngineState) :
    EngineState × Bool :=
  let r := deleteHabit id resp s.habits
  ({ s with habits := r.1 }, r.2)

/-- `toggleEntry` acting on the full engine state: only `entries` is read
or written. -/
def toggleEntryS (resp : Except StoreError Nat) (habitId : String) (date : Int)
    (s : EngineState) : EngineState :=
  { s with entries := toggleEntryStore resp habitId date s.entries }

/-- JavaScript `String.prototype.trim`: drop whitespace from both ends. -/
def jsTrim (s : String) : String :=
  ⟨((s.data.dropWhile Char.isWhitespace).reverse.dropWhile Char.isWhitespace).reverse⟩

/-- The `habitSchema` name check (`z.string().trim().min(1).max(100)`):
zod validates the trimmed value and reports the first failing rule's
message on the `name` path. -/
def nameIssue (name : String) : Option String :=
  if (jsTrim name).length < 1 then some "Name is required"
  else if (jsTrim name).length > 100 then some "Name must be less than 100 characters"
  else none

/-- The `habitSchema` description check (`z.string().max(500).optional()`). -/
def descriptionIssue (description : String) : Option String :=
  if description.length > 500 then some "Description must be less than 500 characters"
  else none

/-- The `habitSchema` frequency check (`z.enum(['daily', 'weekly'])`). -/
def frequencyOk (frequency : String) : Bool :=
  frequency == "daily" || frequency == "weekly"

/-- The per-field errors `validateForm` collects from the zod issues. -/
structure FormErrors where
  name : Option String
  description : Option String
deriving Repr, DecidableEq

/-- `validateForm` from `HabitForm`: parse against `habitSchema`; return
whether parsing succeeded together with the per-field error messages. -/
def validateForm (name description frequency : String) : Bool × FormErrors :=
  let errs : FormErrors := { name := nameIssue name, description := descriptionIssue description }
  (errs.name == none && errs.description == none && frequencyOk frequency, errs)

/-- `handleSubmit` from `HabitForm`, create path: if validation fails,
return without calling `createHabit` (no state change, no habit
created); otherwise submit to `createHabit`. -/
def handleSubmitCreate (name description frequency userId : String)
    (resp : Except StoreError (String × Nat)) (s : EngineState) :
    EngineState × Option Habit :=
  if (validateForm name description frequency).1 then
    createHabitS name description frequency userId resp s
  else
    (s, none)

/-- The store's id generation for `habit_entries.id`
(`UUID PRIMARY KEY DEFAULT gen_random_uuid()` in the schema): an id
distinct from every id already present, modelled over `Nat` ids as one
past the maximum. -/
def genEntryId (entries : List HabitEntry) : Nat :=
  entries.foldr (fun e m => max (e.id + 1) m) 0

/-- A finite sequence of `toggleEntry` calls (success path), each insert
receiving a store-generated fresh id. -/
def toggleSeq (ops : List (String × Int)) (entries : List HabitEntry) : List HabitEntry :=
  ops.foldl (fun s op => toggleEntry (genEntryId s) op.1 op.2 s) entries

/-- The uniqueness invariant of `habit_entries`: no two distinct list
positions share the composite key `(habit_id, date)`. -/
def atMostOnePerKey (entries : List HabitEntry) : Prop :=
  entries.Pairwise fun a b => a.habit_id ≠ b.habit_id ∨ a.date ≠ b.date

instance (entries : List HabitEntry) : Decidable (atMostOnePerKey entries) := by
  unfold atMostOnePerKey
  infer_instance

/-- Weekday designators, after the `DAYS` keys in `HabitForm`. -/
inductive Weekday where
  | mon | tue | wed | thu | fri | sat | sun
deriving Repr, DecidableEq

/-- The `key` field of the `DAYS` list in `HabitForm`. -/
def Weekday.key : Weekday → String
  | .mon => "mon"
  | .tue => "tue"
  | .wed => "wed"
  | .thu => "thu"
  | .fri => "fri"
  | .sat => "sat"
  | .sun => "sun"

/-- Weekday of a day number, anchored so that day 0 (1970-01-01) is a
Thursday. -/
def dayOfWeek (n : Nat) : Weekday :=
  match n % 7 with
  | 0 => .thu
  | 1 => .fri
  | 2 => .sat
  | 3 => .sun
  | 4 => .mon
  | 5 => .tue
  | _ => .wed

/-- One row of `FREQUENCY_OPTIONS` in `HabitForm`. -/
structure FrequencyOption where
  value : String
  label : String
  days : List String
deriving Repr, DecidableEq

/-- `FREQUENCY_OPTIONS` from `HabitForm`: each schedule kind with its
weekday-key set (`custom` has no fixed set; the habit's own selection
applies). -/
def FREQUENCY_OPTIONS : List FrequencyOption :=
  [{ value := "daily", label := "Every day",
     days := ["mon", "tue", "wed", "thu", "fri", "sat", "sun"] },
   { value := "weekdays", label := "Weekdays",
     days := ["mon", "tue", "wed", "thu", "fri"] },
   { value := "weekends", label := "Weekends", days := ["sat", "sun"] },
   { value := "custom", label := "Custom", days := [] }]

/-- Modelled from the spec: the repository source declares the recurrence
day-sets (`FREQUENCY_OPTIONS` in `HabitForm`) but contains no
recurrence-evaluation function; `isDueOnDate` itself is missing from the
source.  Following the spec: `daily` is always due, `weekdays` on
Mon-Fri, `weekends` on Sat/Sun, `custom` exactly on the habit's explicit
day-set; evaluation goes through the `FREQUENCY_OPTIONS` day lists. -/
def isDueOnDate (frequency : String) (customDays : List String) (date : Nat) : Bool :=
  match FREQUENCY_OPTIONS.find? (fun o => o.value == frequency) with
  | some o =>
      if frequency == "custom" then customDays.contains (dayOfWeek date).key
      else o.days.contains (dayOfWeek date).key
  | none => false


lemma isCompletedOnDate_eq_false_of_find?_eq_none
    {entries : List HabitEntry} {habitId : String} {date : Int}
    (h : entries.find? (fun e => e.habit_id == habitId && e.date == date) = none) :
    isCompletedOnDate entries habitId date = false := by
  rw [List.find?_eq_none] at h
  cases hb : isCompletedOnDate entries habitId date
  · rfl
  · obtain ⟨e, he, h1, h2, h3⟩ := isCompletedOnDate_iff.mp hb
    exact absurd (by simp [h1, h2] : (fun e => e.habit_id == habitId && e.date == date) e = true)
      (by simpa using h e he)

/-- C1: `getStreak` returns the number of consecutive calendar days,
walking backward from `asOf`, on which the habit is completed, stopping
at the first non-completed day (so `n = 0` when `asOf` itself is not
completed). -/
theorem getStreak_counts_consecutive_completed_days
    (entries : List HabitEntry) (habitId : String) (asOf : Int) (n : Nat)
    (hall : ∀ k : Nat, k < n → isCompletedOnDate entries habitId (asOf - k) = true)
    (hstop : isCompletedOnDate entries habitId (asOf - n) = false) :
    getStreak entries habitId asOf = n := by
  induction n generalizing asOf with
  | zero =>
    rw [getStreak_eq]
    simp only [Nat.cast_zero, sub_zero] at hstop
    simp [hstop]
  | succ m ih =>
    have h0 : isCompletedOnDate entries habitId asOf = true := by
      simpa using hall 0 (Nat.succ_pos m)
    rw [getStreak_eq]
    simp only [h0, if_true]
    have hall2 : ∀ k : Nat, k < m →
        isCompletedOnDate entries habitId (asOf - 1 - k) = true := by
      intro k hk
      have h := hall (k + 1) (by omega)
      rwa [show (asOf - ((k : Nat) + 1 : Nat)) = asOf - 1 - k by push_cast; ring] at h
    have hstop2 : isCompletedOnDate entries habitId (asOf - 1 - m) = false := by
      rwa [show (asOf - ((m : Nat) + 1 : Nat)) = asOf - 1 - m by push_cast; ring] at hstop
    rw [ih (asOf - 1) hall2 hstop2]
    omega

/-- Witness for C1: days `T = 0`, `T-1`, `T-2` completed, `T-3` absent
gives streak 3. -/
theorem getStreak_counts_consecutive_completed_days_witness :
    getStreak [⟨1, "h", 0, true⟩, ⟨2, "h", -1, true⟩, ⟨3, "h", -2, true⟩] "h" 0 = 3 :=
  getStreak_counts_consecutive_completed_days
    [⟨1, "h", 0, true⟩, ⟨2, "h", -1, true⟩, ⟨3, "h", -2, true⟩] "h" 0 3
    (by decide) (by decide)

/-- C4: `isCompletedOnDate` is a pure lookup: true exactly when some
loaded entry has this habit id and date with `completed = true`; it takes
no habit or recurrence data at all. -/
theorem isCompletedOnDate_pure_lookup
    (entries : List HabitEntry) (habitId : String) (date : Int) :
    isCompletedOnDate entries habitId date = true ↔
      ∃ e ∈ entries, e.habit_id = habitId ∧ e.date = date ∧ e.completed = true :=
  isCompletedOnDate_iff

/-- Witness for C4 at a concrete entry list. -/
theorem isCompletedOnDate_pure_lookup_witness :
    isCompletedOnDate [⟨1, "h", 5, true⟩] "h" 5 = true :=
  (isCompletedOnDate_pure_lookup [⟨1, "h", 5, true⟩] "h" 5).mpr
    ⟨⟨1, "h", 5, true⟩, by simp, rfl, rfl, rfl⟩

lemma getStreak_le_card (entries : List HabitEntry) (habitId : String) (asOf : Int) :
    getStreak entries habitId asOf ≤ (completedDatesLe entries habitId asOf).card := by
  generalize hm : (completedDatesLe entries habitId asOf).card = m
  induction m using Nat.strong_induction_on generalizing asOf with
  | _ m ih =>
    rw [getStreak_eq]
    by_cases h : isCompletedOnDate entries habitId asOf = true
    · simp only [h, if_true]
      have hlt : (completedDatesLe entries habitId (asOf - 1)).card < m := by
        rw [← hm]; exact completedDatesLe_card_lt h
      have hrec := ih _ hlt (asOf - 1) rfl
      omega
    · simp [h]

/-- C9: the backward walk of `getStreak` terminates (it is a total
function) and its result never exceeds the number of distinct loaded
completed entry dates of the habit; entries outside the loaded window do
not exist in `entries` and so count as not completed. -/
theorem getStreak_bounded_by_loaded_entries
    (entries : List HabitEntry) (habitId : String) (asOf : Int) :
    getStreak entries habitId asOf ≤ (completedDates entries habitId).card :=
  le_trans (getStreak_le_card entries habitId asOf)
    (Finset.card_le_card completedDatesLe_subset_completedDates)

lemma isDueOnDate_daily (days : List String) (d : Nat) :
    isDueOnDate "daily" days d
      = (["mon", "tue", "wed", "thu", "fri", "sat", "sun"].contains (dayOfWeek d).key) := rfl

lemma isDueOnDate_weekdays (days : List String) (d : Nat) :
    isDueOnDate "weekdays" days d
      = (["mon", "tue", "wed", "thu", "fri"].contains (dayOfWeek d).key) := rfl

lemma isDueOnDate_weekends (days : List String) (d : Nat) :
    isDueOnDate "weekends" days d = (["sat", "sun"].contains (dayOfWeek d).key) := rfl

lemma isDueOnDate_custom (days : List String) (d : Nat) :
    isDueOnDate "custom" days d = days.contains (dayOfWeek d).key := rfl

/-- C8: recurrence evaluation against the `FREQUENCY_OPTIONS` day-sets:
`daily` is always due, `weekdays` exactly on Mon-Fri (so false on a
Saturday, true on a Tuesday), `weekends` exactly on Sat/Sun, `custom`
exactly on the habit's explicit day-set. -/
theorem isDueOnDate_matches_weekday_sets (d : Nat) (customDays : List String) :
    (isDueOnDate "daily" customDays d = true) ∧
    (isDueOnDate "weekdays" customDays d = true ↔
      (dayOfWeek d = .mon ∨ dayOfWeek d = .tue ∨ dayOfWeek d = .wed ∨
        dayOfWeek d = .thu ∨ dayOfWeek d = .fri)) ∧
    (isDueOnDate "weekends" customDays d = true ↔
      (dayOfWeek d = .sat ∨ dayOfWeek d = .sun)) ∧
    (isDueOnDate "custom" customDays d = true ↔
      customDays.contains (dayOfWeek d).key = true) ∧
    (dayOfWeek d = .sat → isDueOnDate "weekdays" customDays d = false) ∧
    (dayOfWeek d = .tue → isDueOnDate "weekdays" customDays d = true) := by
  rw [isDueOnDate_daily, isDueOnDate_weekdays, isDueOnDate_weekends, isDueOnDate_custom]
  cases h : dayOfWeek d <;> simp [Weekday.key]

/-- Witness for C8: day 2 (1970-01-03) is a Saturday, day 5 (1970-01-06)
a Tuesday. -/
theorem isDueOnDate_matches_weekday_sets_witness :
    isDueOnDate "weekdays" [] 2 = false ∧ isDueOnDate "weekdays" [] 5 = true :=
  ⟨(isDueOnDate_matches_weekday_sets 2 []).2.2.2.2.1 (by decide),
   (isDueOnDate_matches_weekday_sets 5 []).2.2.2.2.2 (by decide)⟩

/-- C10: `description || null` makes an empty-string description reach the
store and the in-memory state as null, while any non-empty description is
kept verbatim, in both `createHabit` and `updateHabit`. -/
theorem description_empty_string_stored_as_null
    (name description frequency userId newId id : String) (ts : Nat)
    (stored : Habit) (s : EngineState) :
    ((createHabitRequest name description frequency userId).description
        = if description = "" then none else some description) ∧
    (∀ h : Habit,
      (createHabitS name description frequency userId (.ok (newId, ts)) s).2 = some h →
        h.description = (if description = "" then none else some description) ∧
        h ∈ ((createHabitS name description frequency userId (.ok (newId, ts)) s).1).habits) ∧
    (∀ h : Habit,
      (updateHabitS id name description frequency (.ok stored) s).2 = some h →
        h.description = (if description = "" then none else some description)) := by
  refine ⟨?_, ?_, ?_⟩
  · by_cases hd : description = "" <;>
      simp [createHabitRequest, descriptionOrNull, hd]
  · intro h hh
    simp only [createHabitS, createHabit, createHabitRequest] at hh ⊢
    rw [Option.some_inj] at hh
    subst hh
    refine ⟨?_, by simp⟩
    by_cases hd : description = "" <;> simp [descriptionOrNull, hd]
  · intro h hh
    simp only [updateHabitS, updateHabit] at hh
    rw [Option.some_inj] at hh
    subst hh
    by_cases hd : description = "" <;> simp [descriptionOrNull, hd]

/-- Witness for C10: creating with an empty description stores null. -/
theorem description_empty_string_stored_as_null_witness :
    (Habit.mk "i1" "Run" none "daily" false 0 "u1").description
      = (if ("" : String) = "" then none else some "") :=
  ((description_empty_string_stored_as_null "Run" "" "daily" "u1" "i1" "x" 0
      ⟨"x", "n", none, "daily", false, 0, "u"⟩ ⟨[], []⟩).2.1
    (Habit.mk "i1" "Run" none "daily" false 0 "u1") rfl).1

/-- C5: a name empty or whitespace-only after trimming, a trimmed name
longer than 100 characters, or a description longer than 500 characters
makes validation fail with the error recorded on the offending field
(empty name always on the `name` field with the zod message), and the
submit path returns without creating a habit or touching the state. -/
theorem invalid_form_input_rejected
    (name description frequency userId : String)
    (resp : Except StoreError (String × Nat)) (s : EngineState)
    (hbad : (jsTrim name).length = 0 ∨ 100 < (jsTrim name).length ∨ 500 < description.length) :
    ((validateForm name description frequency).1 = false) ∧
    (handleSubmitCreate name description frequency userId resp s = (s, none)) ∧
    ((jsTrim name).length = 0 →
      (validateForm name description frequency).2.name = some "Name is required") ∧
    (100 < (jsTrim name).length →
      ((validateForm name description frequency).2.name).isSome = true) ∧
    (500 < description.length →
      ((validateForm name description frequency).2.description).isSome = true) := by
  have hfalse : (validateForm name description frequency).1 = false := by
    rcases hbad with h | h | h
    · simp [validateForm, nameIssue, show (jsTrim name).length < 1 by omega]
    · simp [validateForm, nameIssue, show ¬ (jsTrim name).length < 1 by omega, h]
    · simp [validateForm, descriptionIssue, h]
  refine ⟨hfalse, ?_, ?_, ?_, ?_⟩
  · simp [handleSubmitCreate, hfalse]
  · intro h
    simp [validateForm, nameIssue, show (jsTrim name).length < 1 by omega]
  · intro h
    simp [validateForm, nameIssue, show ¬ (jsTrim name).length < 1 by omega, h]
  · intro h
    simp [validateForm, descriptionIssue, h]

/-- Witness for C5: a whitespace-only name is rejected on the name field
and no habit is created. -/
theorem invalid_form_input_rejected_witness :
    (validateForm " " "" "daily").1 = false ∧
    handleSubmitCreate " " "" "daily" "u1" (.ok ("i", 0)) ⟨[], []⟩ = (⟨[], []⟩, none) ∧
    (validateForm " " "" "daily").2.name = some "Name is required" := by
  have h := invalid_form_input_rejected " " "" "daily" "u1" (.ok ("i", 0)) ⟨[], []⟩
    (Or.inl (by decide))
  exact ⟨h.1, h.2.1, h.2.2.1 (by decide)⟩

/-- C6 counterexample: the claim says a failing store call surfaces the
`StoreError` to the caller untouched, but every operation swallows it:
on error `createHabit` returns `null` (carrying no error value), and two
different store errors produce identical caller-visible results. -/
theorem store_error_not_surfaced_counterexample :
    (createHabit "Run" "" "daily" "u1" (.error ⟨"network failure"⟩) []).2 = none ∧
    createHabit "Run" "" "daily" "u1" (.error ⟨"network failure"⟩) [] =
      createHabit "Run" "" "daily" "u1" (.error ⟨"ownership violation"⟩) [] ∧
    (deleteHabit "a" (.error ⟨"network failure"⟩) []).2 = false :=
  ⟨rfl, rfl, rfl⟩

/-- C6 amended: on a failing store call every operation leaves the
in-memory state exactly unchanged and signals failure by returning
`null`/`false` (no retry); the `StoreError` itself is not propagated. -/
theorem store_error_leaves_state_unchanged
    (err : StoreError) (name description frequency userId id habitId : String)
    (date : Int) (s : EngineState) :
    createHabitS name description frequency userId (.error err) s = (s, none) ∧
    updateHabitS id name description frequency (.error err) s = (s, none) ∧
    deleteHabitS id (.error err) s = (s, false) ∧
    toggleEntryS (.error err) habitId date s = s :=
  ⟨rfl, rfl, rfl, rfl⟩

/-- C7 counterexample: after a successful `deleteHabit("a")` the habit is
gone from the habit list, yet its cached entry still makes
`isCompletedOnDate "a" 0` true — `deleteHabit` never writes the
`entries` state. -/
theorem deleteHabit_leaves_cached_entries_counterexample :
    (deleteHabitS "a" (.ok ())
        ⟨[⟨"a", "Read", none, "daily", false, 0, "u1"⟩], [⟨1, "a", 0, true⟩]⟩).2 = true ∧
    ((deleteHabitS "a" (.ok ())
        ⟨[⟨"a", "Read", none, "daily", false, 0, "u1"⟩], [⟨1, "a", 0, true⟩]⟩).1).habits = [] ∧
    isCompletedOnDate
      ((deleteHabitS "a" (.ok ())
          ⟨[⟨"a", "Read", none, "daily", false, 0, "u1"⟩], [⟨1, "a", 0, true⟩]⟩).1).entries
      "a" 0 = true := by
  refine ⟨rfl, by decide, by decide⟩

/-- C7 amended: a successful `deleteHabit(id)` removes the habit from the
in-memory habit collection (subsequent listings exclude it) and returns
true, but leaves the cached `entries` list untouched; stale entries of the
deleted habit are only replaced by a later entry refetch. -/
theorem deleteHabit_removes_habit_entries_untouched (id : String) (s : EngineState) :
    (∀ h ∈ ((deleteHabitS id (.ok ()) s).1).habits, h.id ≠ id) ∧
    ((deleteHabitS id (.ok ()) s).1).entries = s.entries ∧
    (deleteHabitS id (.ok ()) s).2 = true := by
  refine ⟨?_, rfl, rfl⟩
  intro h hh
  simp only [deleteHabitS, deleteHabit, List.mem_filter] at hh
  simpa using hh.2

/-- Witness for C7's amended theorem at a concrete state. -/
theorem deleteHabit_removes_habit_entries_untouched_witness :
    (Habit.mk "b" "Read" none "daily" false 0 "u1").id ≠ "a" :=
  (deleteHabit_removes_habit_entries_untouched "a"
      ⟨[⟨"b", "Read", none, "daily", false, 0, "u1"⟩], []⟩).1
    ⟨"b", "Read", none, "daily", false, 0, "u1"⟩ (by decide)

lemma toggleEntry_update_eq {entries : List HabitEntry} {habitId : String} {date : Int}
    {ex : HabitEntry} {newId : Nat}
    (hfind : entries.find? (fun e => e.habit_id == habitId && e.date == date) = some ex) :
    toggleEntry newId habitId date entries =
      entries.map fun e =>
        if e.id == ex.id then { ex with completed := !ex.completed } else e := by
  unfold toggleEntry
  rw [hfind]

lemma toggleEntry_insert_eq {entries : List HabitEntry} {habitId : String} {date : Int}
    {newId : Nat}
    (hfind : entries.find? (fun e => e.habit_id == habitId && e.date == date) = none) :
    toggleEntry newId habitId date entries =
      entries ++ [⟨newId, habitId, date, true⟩] := by
  unfold toggleEntry
  rw [hfind]

lemma find?_congr {α : Type} {p q : α → Bool} {l : List α}
    (h : ∀ x ∈ l, p x = q x) : l.find? p = l.find? q := by
  induction l with
  | nil => rfl
  | cons a t ih =>
    have ha := h a (List.mem_cons_self a t)
    simp only [List.find?_cons, ha]
    cases hq : q a
    · exact ih fun x hx => h x (List.mem_cons_of_mem a hx)
    · rfl

/-- C2: calling `toggleEntry` for the same `(habitId, date)` twice in
immediate sequence (both store calls succeeding) brings
`isCompletedOnDate` back to its value before the first call.  The
hypotheses are the store's primary-key guarantees: loaded entry ids are
pairwise distinct, and an inserted id is fresh. -/
theorem toggleEntry_twice_restores_completion
    (entries : List HabitEntry) (habitId : String) (date : Int) (id1 id2 : Nat)
    (hnodup : (entries.map HabitEntry.id).Nodup)
    (hfresh : id1 ∉ entries.map HabitEntry.id) :
    isCompletedOnDate (toggleEntry id2 habitId date (toggleEntry id1 habitId date entries))
        habitId date
      = isCompletedOnDate entries habitId date := by
  rcases hfind : entries.find? (fun e => e.habit_id == habitId && e.date == date) with _ | ex
  · -- no existing entry: insert then flip the inserted row to false
    rw [toggleEntry_insert_eq hfind]
    have hfind2 : ((entries ++ [(⟨id1, habitId, date, true⟩ : HabitEntry)]).find?
          (fun e => e.habit_id == habitId && e.date == date))
        = some (⟨id1, habitId, date, true⟩ : HabitEntry) := by
      rw [List.find?_append, hfind]
      simp
    rw [toggleEntry_update_eq hfind2]
    have hmap : ((entries ++ [(⟨id1, habitId, date, true⟩ : HabitEntry)]).map fun e =>
          if e.id == (⟨id1, habitId, date, true⟩ : HabitEntry).id
          then { (⟨id1, habitId, date, true⟩ : HabitEntry) with completed := !true }
          else e)
        = entries ++ [(⟨id1, habitId, date, false⟩ : HabitEntry)] := by
      rw [List.map_append]
      congr 1
      · conv_rhs => rw [← List.map_id entries]
        apply List.map_congr_left
        intro e he
        have hne : ¬ e.id = id1 := by
          intro hcontra
          exact hfresh (hcontra ▸ List.mem_map_of_mem HabitEntry.id he)
        simp [hne]
      · simp
    rw [hmap]
    have hnone := List.find?_eq_none.mp hfind
    have hl : isCompletedOnDate (entries ++ [(⟨id1, habitId, date, false⟩ : HabitEntry)]) habitId date
        = false := by
      unfold isCompletedOnDate
      rw [List.any_append]
      simp only [Bool.or_eq_false_iff]
      constructor
      · rw [List.any_eq_false]
        intro e he
        have := hnone e he
        simp only [Bool.and_eq_true, beq_iff_eq, not_and] at this ⊢
        tauto
      · simp
    rw [hl, isCompletedOnDate_eq_false_of_find?_eq_none hfind]
  · -- existing entry: flip twice, restoring the entry list exactly
    obtain ⟨exid, exh, exd, exc⟩ := ex
    have hmem := List.mem_of_find?_eq_some hfind
    have hp := List.find?_some hfind
    simp only [Bool.and_eq_true, beq_iff_eq] at hp
    obtain ⟨hph, hpd⟩ := hp
    subst hph
    subst hpd
    have hinj := List.inj_on_of_nodup_map hnodup
    rw [toggleEntry_update_eq hfind]
    have hfind2 : ((entries.map fun e =>
            if e.id == (⟨exid, exh, exd, exc⟩ : HabitEntry).id
            then { (⟨exid, exh, exd, exc⟩ : HabitEntry) with completed := !exc }
            else e).find? (fun e => e.habit_id == exh && e.date == exd))
        = some (⟨exid, exh, exd, !exc⟩ : HabitEntry) := by
      rw [List.find?_map]
      have hcongr : ∀ x ∈ entries,
          ((fun e : HabitEntry => e.habit_id == exh && e.date == exd) ∘
            (fun e => if e.id == (⟨exid, exh, exd, exc⟩ : HabitEntry).id
              then { (⟨exid, exh, exd, exc⟩ : HabitEntry) with completed := !exc }
              else e)) x
          = (fun e : HabitEntry => e.habit_id == exh && e.date == exd) x := by
        intro x hx
        simp only [Function.comp]
        by_cases h : x.id = exid
        · have hxe : x = ⟨exid, exh, exd, exc⟩ := hinj hx hmem (by simpa using h)
          subst hxe
          simp
        · simp [h]
      rw [find?_congr hcongr, hfind]
      simp
    rw [toggleEntry_update_eq hfind2]
    rw [List.map_map]
    have hpt : ∀ x ∈ entries,
        ((fun e : HabitEntry =>
            if e.id == (⟨exid, exh, exd, !exc⟩ : HabitEntry).id
            then { (⟨exid, exh, exd, !exc⟩ : HabitEntry) with completed := !(!exc) }
            else e) ∘
          (fun e => if e.id == (⟨exid, exh, exd, exc⟩ : HabitEntry).id
            then { (⟨exid, exh, exd, exc⟩ : HabitEntry) with completed := !exc }
            else e)) x = id x := by
      intro x hx
      simp only [Function.comp, id]
      by_cases h : x.id = exid
      · have hxe : x = ⟨exid, exh, exd, exc⟩ := hinj hx hmem (by simpa using h)
        subst hxe
        simp [Bool.not_not]
      · simp [h]
    rw [List.map_congr_left hpt, List.map_id]

/-- Witness for C2 at a concrete entry list. -/
theorem toggleEntry_twice_restores_completion_witness :
    isCompletedOnDate (toggleEntry 2 "h" 0 (toggleEntry 1 "h" 0 [⟨5, "h", 0, true⟩])) "h" 0
      = isCompletedOnDate [⟨5, "h", 0, true⟩] "h" 0 :=
  toggleEntry_twice_restores_completion [⟨5, "h", 0, true⟩] "h" 0 1 2 (by decide) (by decide)

lemma toggleEntry_preserves_invariants {entries : List HabitEntry} {habitId : String}
    {date : Int} {newId : Nat}
    (hnodup : (entries.map HabitEntry.id).Nodup)
    (hkeys : atMostOnePerKey entries)
    (hfresh : newId ∉ entries.map HabitEntry.id) :
    ((toggleEntry newId habitId date entries).map HabitEntry.id).Nodup ∧
      atMostOnePerKey (toggleEntry newId habitId date entries) := by
  rcases hfind : entries.find? (fun e => e.habit_id == habitId && e.date == date) with _ | ex
  · rw [toggleEntry_insert_eq hfind]
    have hnone := List.find?_eq_none.mp hfind
    constructor
    · rw [List.map_append, List.nodup_append]
      refine ⟨hnodup, by simp, ?_⟩
      intro a ha hb
      simp only [List.map_cons, List.map_nil, List.mem_cons, List.not_mem_nil, or_false] at hb
      subst hb
      exact hfresh ha
    · unfold atMostOnePerKey at hkeys ⊢
      rw [List.pairwise_append]
      refine ⟨hkeys, by simp, ?_⟩
      intro a ha b hb
      simp only [List.mem_cons, List.not_mem_nil, or_false] at hb
      subst hb
      have := hnone a ha
      simp only [Bool.and_eq_true, beq_iff_eq, not_and] at this
      by_cases hh : a.habit_id = habitId
      · exact Or.inr (by simpa using this hh)
      · exact Or.inl (by simpa using hh)
  · obtain ⟨exid, exh, exd, exc⟩ := ex
    have hmem := List.mem_of_find?_eq_some hfind
    have hinj := List.inj_on_of_nodup_map hnodup
    rw [toggleEntry_update_eq hfind]
    have hid : (fun e : HabitEntry =>
        HabitEntry.id (if e.id == (⟨exid, exh, exd, exc⟩ : HabitEntry).id
          then { (⟨exid, exh, exd, exc⟩ : HabitEntry) with completed := !exc }
          else e)) = fun e : HabitEntry => e.id := by
      funext e
      by_cases h : e.id = exid
      · simp [h]
      · simp [h]
    constructor
    · rw [List.map_map]
      simp only [Function.comp_def]
      rw [hid]
      exact hnodup
    · unfold atMostOnePerKey at hkeys ⊢
      rw [List.pairwise_map]
      refine List.Pairwise.imp_of_mem ?_ hkeys
      intro a b ha hb hr
      have hkey : ∀ x ∈ entries,
          ((if x.id == (⟨exid, exh, exd, exc⟩ : HabitEntry).id
            then { (⟨exid, exh, exd, exc⟩ : HabitEntry) with completed := !exc }
            else x).habit_id = x.habit_id ∧
          (if x.id == (⟨exid, exh, exd, exc⟩ : HabitEntry).id
            then { (⟨exid, exh, exd, exc⟩ : HabitEntry) with completed := !exc }
            else x).date = x.date) := by
        intro x hx
        by_cases h : x.id = exid
        · have hxe : x = ⟨exid, exh, exd, exc⟩ := hinj hx hmem (by simpa using h)
          subst hxe
          simp
        · simp [h]
      obtain ⟨ha1, ha2⟩ := hkey a ha
      obtain ⟨hb1, hb2⟩ := hkey b hb
      rw [ha1, ha2, hb1, hb2]
      exact hr

lemma lt_genEntryId (entries : List HabitEntry) :
    ∀ e ∈ entries, e.id < genEntryId entries := by
  induction entries with
  | nil => intro e he; cases he
  | cons a t ih =>
    intro e he
    simp only [genEntryId, List.foldr_cons]
    rcases List.mem_cons.mp he with rfl | ht
    · exact lt_of_lt_of_le (Nat.lt_succ_self _) (le_max_left _ _)
    · exact lt_of_lt_of_le (ih e ht) (le_max_right _ _)

lemma genEntryId_fresh (entries : List HabitEntry) :
    genEntryId entries ∉ entries.map HabitEntry.id := by
  intro hmem
  obtain ⟨e, he, heq⟩ := List.mem_map.mp hmem
  exact absurd heq (Nat.ne_of_lt (lt_genEntryId entries e he))

/-- C3: starting from an entry collection satisfying the store's
invariants (distinct ids, at most one entry per `(habit_id, date)` key),
any finite sequence of `toggleEntry` calls preserves them: an existing
entry is updated in place and an insert happens only when no entry
exists for the key. -/
theorem toggleSeq_preserves_uniqueness
    (ops : List (String × Int)) (entries : List HabitEntry)
    (hnodup : (entries.map HabitEntry.id).Nodup)
    (hkeys : atMostOnePerKey entries) :
    atMostOnePerKey (toggleSeq ops entries) ∧
      ((toggleSeq ops entries).map HabitEntry.id).Nodup := by
  induction ops generalizing entries with
  | nil => exact ⟨hkeys, hnodup⟩
  | cons op rest ih =>
    simp only [toggleSeq, List.foldl_cons] at *
    have step := @toggleEntry_preserves_invariants entries op.1 op.2 (genEntryId entries)
      hnodup hkeys (genEntryId_fresh entries)
    exact ih _ step.1 step.2

/-- Witness for C3 at a concrete operation sequence. -/
theorem toggleSeq_preserves_uniqueness_witness :
    atMostOnePerKey (toggleSeq [("h", 0), ("h", 0), ("g", 1)] [⟨5, "h", 0, true⟩]) :=
  (toggleSeq_preserves_uniqueness [("h", 0), ("h", 0), ("g", 1)] [⟨5, "h", 0, true⟩]
    (by decide) (by decide)).1
